import Mathlib

/-!
# Verification of `go-convert-to-bytes` (`bytes_to_data.go`)

A shallow embedding of the byte-buffer decoder in `bytes_to_data.go`
(package `dtb`), together with theorems settling the specification's
claims about it.

Modelling conventions:
* Go byte slices are `List Nat`, each entry meant to lie below 256.
* Machine integers are `Nat`/`Int` with explicit wrap-around
  (`% 2^w`) at the points where Go converts or stores values.
* IEEE-754 floats are carried as their raw bit patterns: the decoder
  only moves bits (`math.Float32frombits` followed by `SetFloat` on a
  field of the same width is the identity on the bit pattern), so no
  floating-point arithmetic needs to be modelled.
* Run-time panics (out-of-range index or slice expressions,
  `panic(123)`) are the `DRes.fault` outcome, kept distinct from error
  returns.
* The decoder can genuinely fail to terminate (a custom codec may keep
  growing the value that an interface field then recurses into), and a
  Go run would overflow its stack; the embedding therefore carries a
  fuel parameter, and fuel exhaustion is the distinct outcome
  `DRes.fuelOut`.
* Reflection subtleties retained from Go: the method set of `*T`
  contains the value-receiver methods of `T` as well, and the receiver
  parameter of a method resolved on `*T` is reported as `*T` (kind
  `Ptr`).  Addressability of nested values is not modelled: writes
  into the value held by an interface are treated as landing in the
  interface slot (the claims under test do not depend on this).
-/

namespace DTB

/-- Byte order selector (`binary.ByteOrder`). -/
inductive Endian where
  | little
  | big
deriving DecidableEq

/-- The distinct error values the decoder (or a custom codec) can
return.  Each constructor corresponds to one `errors.New`/`fmt.Errorf`
site in the source; `codecErr` stands for an error value produced by a
custom codec method, which the source propagates verbatim. -/
inductive DErr where
  | notPointer
  | twoFnNames (field : String)
  | methodNotFound (structName method field : String)
  | badNumIn (structName method : String)
  | badArgType (structName method : String)
  | badNumOut (structName method : String)
  | badOut0 (structName method : String)
  | badOut1 (structName method : String)
  | missingLength (field : String)
  | unsupportedType (kind : String)
  | codecErr (code : Nat)
deriving DecidableEq

/-- Outcome of a decode step: a run-time panic, fuel exhaustion (the
embedding's stand-in for unbounded recursion), or the Go function's
ordinary `(offset, err)` return pair. -/
inductive DRes where
  | fault
  | fuelOut
  | ret (offset : Int) (err : Option DErr)
deriving DecidableEq

mutual
/-- The shape of a Go destination value, as `reflect.Kind` dispatches
on it in `updateValueByTypeFromBytes`.  `struct` carries the type name
(used for method lookup) and its ordered field descriptors; `arrSlice`
covers both `reflect.Array` and `reflect.Slice` (the element count
comes from the value, `value.Len()`); `unsupported` is any kind
outside the switch (e.g. `bool`, `map`), carrying the kind's name. -/
inductive Ty where
  | int8
  | int16
  | int32
  | int64
  | uint8
  | uint16
  | uint32
  | uint64
  | float32
  | float64
  | str
  | struct (name : String) (fields : List Field)
  | arrSlice (elem : Ty)
  | iface
  | unsupported (kindName : String)

/-- A struct field descriptor: name, type, whether
`fieldValue.CanInterface()` holds (i.e. the field is exported), and
the raw values of the `bytes_ignore`, `bytes_fn` and `bytes_length`
tags (`reflect.StructTag.Get` returns `""` when a tag is absent). -/
inductive Field where
  | mk (name : String) (ty : Ty) (accessible : Bool)
       (tagIgnore : String) (tagFn : String) (tagLength : String)
end

def Field.name : Field → String
  | .mk n _ _ _ _ _ => n

def Field.ty : Field → Ty
  | .mk _ t _ _ _ _ => t

def Field.accessible : Field → Bool
  | .mk _ _ a _ _ _ => a

def Field.tagIgnore : Field → String
  | .mk _ _ _ ti _ _ => ti

def Field.tagFn : Field → String
  | .mk _ _ _ _ tf _ => tf

def Field.tagLength : Field → String
  | .mk _ _ _ _ _ tl => tl

/-- A Go runtime value.  Signed integers are `intV`, unsigned `uintV`,
floats carry their IEEE bit pattern, strings their byte content.
`ifaceV` is an interface slot holding a concrete value of the given
concrete type; `ifaceNil` a nil interface; `other` a value of a kind
the decoder does not write (e.g. `bool`). -/
inductive Val where
  | intV (n : Int)
  | uintV (n : Nat)
  | floatV (bits : Nat)
  | strV (bytes : List Nat)
  | structV (fields : List Val)
  | arrV (elems : List Val)
  | ifaceV (concreteTy : Ty) (v : Val)
  | ifaceNil
  | other

/-- A method on a (named) struct type, as seen through `reflect`.
`numIn`/`numOut` count parameters as `reflect.Type` reports them on a
method resolved from the pointer type (so `numIn` includes the
receiver).  `impl` is the method body: it receives the receiver
struct's current field values and the byte argument, and returns the
receiver's new field values together with the `(int, error)` results.
For a value-receiver method (`ptrReceiver = false`) Go passes a copy,
so the returned field values are discarded by the caller. -/
structure GoMethod where
  ptrReceiver : Bool
  numIn : Nat
  arg1IsBytes : Bool
  numOut : Nat
  out0IsInt : Bool
  out1IsError : Bool
  impl : List Val → List Nat → List Val × Int × Option DErr

/-- The method sets of the program's named struct types: struct type
name and method name to method.  `mtab s m = some gm` models `method
m` being declared on type `s` (with either receiver kind); per Go's
method-set rules every such method is visible through `*s`. -/
def MTab := String → String → Option GoMethod

/-- The empty method table. -/
def mtab0 : MTab := fun _ _ => none

/-- Little-endian value of a byte list. -/
def leVal : List Nat → Nat
  | [] => 0
  | b :: rest => b + 256 * leVal rest

/-- `endian.Uint16/Uint32/Uint64`: the unsigned value of the first `w`
bytes under the given byte order (callers have already checked that at
least `w` bytes are present, as Go's `bytes[:w]` does). -/
def readUint (e : Endian) (w : Nat) (bs : List Nat) : Nat :=
  match e with
  | .little => leVal (bs.take w)
  | .big => leVal (bs.take w).reverse

/-- Reinterpret the low `w` bits of `n` as a signed `w`-bit value
(Go's `intW(x)` conversion from an unsigned value). -/
def toSigned (w : Nat) (n : Nat) : Int :=
  let m := n % 2 ^ w
  if m < 2 ^ (w - 1) then (m : Int) else (m : Int) - 2 ^ w

/-- Go's `uint64(x)` conversion of a signed value: reduce modulo
`2^64` into a natural number. -/
def intToUint64 (x : Int) : Nat :=
  (x % (2 ^ 64 : Int)).toNat

/-- `reflect.Value.SetInt` on a signed-integer field of width `w`
bits: stores the value truncated to the field's width.  Panics (here:
`none`) if the destination is not of a signed-integer kind. -/
def setIntW (w : Nat) (x : Int) : Val → Option Val
  | .intV _ => some (.intV (toSigned w (intToUint64 x)))
  | _ => none

/-- `reflect.Value.SetUint` on an unsigned field of width `w` bits:
stores the value truncated to the field's width. -/
def setUintW (w : Nat) (x : Nat) : Val → Option Val
  | .uintV _ => some (.uintV (x % 2 ^ w))
  | _ => none

/-- `reflect.Value.SetFloat`: the decoder reads a bit pattern with
`math.FloatWfrombits` and immediately stores it into a field of the
same width, so the net effect is storing the bit pattern. -/
def setFloatBits (bits : Nat) : Val → Option Val
  | .floatV _ => some (.floatV bits)
  | _ => none

/-- `reflect.Value.SetString`. -/
def setStringV (s : List Nat) : Val → Option Val
  | .strV _ => some (.strV s)
  | _ => none

/-- `strconv.ParseBool`: accepts exactly these representations. -/
def parseBool (s : String) : Option Bool :=
  if s = "1" ∨ s = "t" ∨ s = "T" ∨ s = "true" ∨ s = "TRUE" ∨ s = "True" then some true
  else if s = "0" ∨ s = "f" ∨ s = "F" ∨ s = "false" ∨ s = "FALSE" ∨ s = "False" then some false
  else none

/-- Decimal digits of a character list, `none` on any non-digit. -/
def digitsVal : List Char → Nat → Option Nat
  | [], acc => some acc
  | c :: rest, acc =>
      if c.isDigit then digitsVal rest (acc * 10 + (c.toNat - 48)) else none

/-- `strconv.ParseInt(s, 10, 32)`: optional sign, at least one decimal
digit, result within the signed 32-bit range; `none` on any parse or
range error. -/
def parseInt32 (s : String) : Option Int :=
  let cs := s.toList
  let signed : Bool × List Char :=
    match cs with
    | '+' :: rest => (false, rest)
    | '-' :: rest => (true, rest)
    | rest => (false, rest)
  match signed.2 with
  | [] => none
  | ds =>
    match digitsVal ds 0 with
    | none => none
    | some n =>
      let v : Int := if signed.1 then -(n : Int) else (n : Int)
      if -(2 ^ 31) ≤ v ∧ v ≤ 2 ^ 31 - 1 then some v else none

/-- `strings.Split(s, ",")`, written over the character list. -/
def splitCommaAux : List Char → List Char → List String
  | [], acc => [String.mk acc.reverse]
  | c :: rest, acc =>
      if c = ',' then String.mk acc.reverse :: splitCommaAux rest []
      else splitCommaAux rest (c :: acc)

/-- `strings.Split(s, ",")`. -/
def splitComma (s : String) : List String :=
  splitCommaAux s.toList []

/-- Modelled from the spec: `bytesToStr` is defined outside the
provided source file.  The spec says fixed-length text decoding
"read[s] exactly that many raw bytes, trim[s] any trailing NUL
padding, store[s] as text", so `bytesToStr` drops trailing zero
bytes. -/
def bytesToStr (bs : List Nat) : List Nat :=
  (bs.reverse.dropWhile (· = 0)).reverse

mutual
/-- Modelled from the spec: `typeSize` is defined outside the provided
source file (it belongs to the encode direction).  The spec calls it
the field's "static type size"; scalar widths are fixed by the kind
(1/2/4/8 bytes), a record's size is the sum of its fields' sizes.
The spec does not determine a static size for strings, slices,
interfaces or unsupported kinds; those cases are set to 0 here and no
claim under test depends on them. -/
def typeSize : Ty → Nat
  | .int8 => 1
  | .int16 => 2
  | .int32 => 4
  | .int64 => 8
  | .uint8 => 1
  | .uint16 => 2
  | .uint32 => 4
  | .uint64 => 8
  | .float32 => 4
  | .float64 => 8
  | .str => 0
  | .struct _ fs => typeSizeFields fs
  | .arrSlice _ => 0
  | .iface => 0
  | .unsupported _ => 0

/-- Sum of the static sizes of a field list. -/
def typeSizeFields : List Field → Nat
  | [] => 0
  | .mk _ t _ _ _ _ :: rest => typeSize t + typeSizeFields rest
end

/-- Go's slice expression `bs[off:]`: defined when `0 ≤ off ≤ len bs`,
otherwise a run-time panic (`none`). -/
def sliceFrom (bs : List Nat) (off : Int) : Option (List Nat) :=
  if 0 ≤ off ∧ off ≤ (bs.length : Int) then some (bs.drop off.toNat) else none

/-- Go's slice expression `bs[off : off+len]`: defined when
`0 ≤ off ≤ off+len ≤ len bs`, otherwise a run-time panic. -/
def sliceRange (bs : List Nat) (off len : Int) : Option (List Nat) :=
  if 0 ≤ off ∧ 0 ≤ len ∧ off + len ≤ (bs.length : Int) then
    some ((bs.drop off.toNat).take len.toNat)
  else none

/-- `decodeValueViaFunc(structName, fieldValue, method, methodType,
data)`.  `recvFields` is the current field-value list of the owning
struct (the method value is bound to `value.Addr()`); `recvParamIsPtr`
is the kind test `methodType.Type.In(0).Kind() == reflect.Ptr` — the
caller resolved the method on the pointer type, so reflect reports the
receiver parameter as the pointer type and the caller passes `true`.
A failing receiver-kind test executes `panic(123)` (`none`).  Returns
the updated receiver fields (unchanged for a value receiver, which Go
calls on a copy) and the Go `(int, error)` results; the `fieldValue`
parameter is unused, as in the source. -/
def decodeValueViaFunc (structName : String) (_fieldValue : Val)
    (recvFields : List Val) (m : GoMethod) (recvParamIsPtr : Bool)
    (methodName : String) (data : List Nat) :
    Option (List Val × Int × Option DErr) :=
  if m.numIn ≠ 2 then some (recvFields, 0, some (.badNumIn structName methodName))
  else if recvParamIsPtr = false then none
  else if m.arg1IsBytes = false then some (recvFields, 0, some (.badArgType structName methodName))
  else if m.numOut ≠ 2 then some (recvFields, 0, some (.badNumOut structName methodName))
  else if m.out0IsInt = false then some (recvFields, 0, some (.badOut0 structName methodName))
  else if m.out1IsError = false then some (recvFields, 0, some (.badOut1 structName methodName))
  else
    match m.impl recvFields data with
    | (newRecv, n, e) =>
      let updated := if m.ptrReceiver then newRecv else recvFields
      match e with
      | some err => some (updated, 0, some err)
      | none => some (updated, n, none)

mutual
/-- `updateValueByTypeFromBytes(value, Type, bytes, endian)`.  The
result pairs the (possibly partially) updated value with the outcome;
`fuel` bounds the recursion depth and list progress (a real Go run is
reproduced by any sufficiently large fuel). -/
def updateValueByTypeFromBytes (mtab : MTab) :
    Nat → Val → Ty → List Nat → Endian → Val × DRes
  | 0, v, _, _, _ => (v, .fuelOut)
  | fuel + 1, v, t, bytes, endian =>
    match t with
    | .int8 =>
      if bytes.length < 1 then (v, .fault)
      else
        match setIntW 8 (toSigned 8 (readUint endian 1 bytes)) v with
        | none => (v, .fault)
        | some v2 => (v2, .ret 1 none)
    | .int16 =>
      if bytes.length < 2 then (v, .fault)
      else
        match setIntW 16 (toSigned 16 (readUint endian 2 bytes)) v with
        | none => (v, .fault)
        | some v2 => (v2, .ret 2 none)
    | .int32 =>
      if bytes.length < 4 then (v, .fault)
      else
        match setIntW 32 (toSigned 32 (readUint endian 4 bytes)) v with
        | none => (v, .fault)
        | some v2 => (v2, .ret 4 none)
    | .int64 =>
      if bytes.length < 8 then (v, .fault)
      else
        match setIntW 64 (toSigned 64 (readUint endian 8 bytes)) v with
        | none => (v, .fault)
        | some v2 => (v2, .ret 8 none)
    | .uint8 =>
      if bytes.length < 1 then (v, .fault)
      else
        match setUintW 8 (readUint endian 1 bytes) v with
        | none => (v, .fault)
        | some v2 => (v2, .ret 1 none)
    | .uint16 =>
      if bytes.length < 2 then (v, .fault)
      else
        match setUintW 16 (intToUint64 (toSigned 16 (readUint endian 2 bytes))) v with
        | none => (v, .fault)
        | some v2 => (v2, .ret 2 none)
    | .uint32 =>
      if bytes.length < 4 then (v, .fault)
      else
        match setUintW 32 (intToUint64 (toSigned 16 (readUint endian 4 bytes))) v with
        | none => (v, .fault)
        | some v2 => (v2, .ret 4 none)
    | .uint64 =>
      if bytes.length < 8 then (v, .fault)
      else
        match setUintW 64 (readUint endian 8 bytes) v with
        | none => (v, .fault)
        | some v2 => (v2, .ret 8 none)
    | .float32 =>
      if bytes.length < 4 then (v, .fault)
      else
        match setFloatBits (readUint endian 4 bytes) v with
        | none => (v, .fault)
        | some v2 => (v2, .ret 4 none)
    | .float64 =>
      if bytes.length < 8 then (v, .fault)
      else
        match setFloatBits (readUint endian 8 bytes) v with
        | none => (v, .fault)
        | some v2 => (v2, .ret 8 none)
    | .struct sname fields =>
      match v with
      | .structV fvals =>
        match updateStructFields mtab fuel sname bytes endian fields 0 fvals 0 with
        | (fvals2, res) => (.structV fvals2, res)
      | _ => (v, .fault)
    | .arrSlice elemTy =>
      match v with
      | .arrV elems =>
        match updateArrayElems mtab fuel elemTy bytes endian elems 0 with
        | (elems2, res) => (.arrV elems2, res)
      | _ => (v, .fault)
    | .iface =>
      match v with
      | .ifaceV it iv =>
        match updateValueByTypeFromBytes mtab fuel iv it bytes endian with
        | (_, .fault) => (v, .fault)
        | (_, .fuelOut) => (v, .fuelOut)
        | (iv2, .ret o none) => (.ifaceV it iv2, .ret o none)
        | (iv2, .ret _ (some e)) => (.ifaceV it iv2, .ret 0 (some e))
      | _ => (v, .fault)
    | .str => (v, .ret 0 (some (.unsupportedType "string")))
    | .unsupported k => (v, .ret 0 (some (.unsupportedType k)))

/-- The field loop of the `reflect.Struct` case: iterates the field
descriptors in order, with `i` the field index into the struct's
current field values `fvals` and `off` the cursor. -/
def updateStructFields (mtab : MTab) :
    Nat → String → List Nat → Endian → List Field → Nat → List Val → Int →
    List Val × DRes
  | 0, _, _, _, _, _, fvals, _ => (fvals, .fuelOut)
  | _ + 1, _, _, _, [], _, fvals, off => (fvals, .ret off none)
  | fuel + 1, sname, bytes, endian, f :: rest, i, fvals, off =>
    match fvals[i]? with
    | none => (fvals, .fault)
    | some fv =>
      if f.accessible = false then
        updateStructFields mtab fuel sname bytes endian rest (i + 1) fvals
          (off + (typeSize f.ty : Int))
      else if f.tagIgnore ≠ "" ∧ parseBool f.tagIgnore = some true then
        updateStructFields mtab fuel sname bytes endian rest (i + 1) fvals off
      else if f.tagFn ≠ "" then
        match splitComma f.tagFn with
        | _ :: mname :: _ =>
          match mtab sname mname with
          | none => (fvals, .ret 0 (some (.methodNotFound sname mname f.name)))
          | some m =>
            match sliceFrom bytes off with
            | none => (fvals, .fault)
            | some data =>
              match decodeValueViaFunc sname fv fvals m true mname data with
              | none => (fvals, .fault)
              | some (fvals2, _, some e) => (fvals2, .ret 0 (some e))
              | some (fvals2, o, none) =>
                updateStructFields mtab fuel sname bytes endian rest (i + 1) fvals2 (off + o)
        | _ => (fvals, .ret 0 (some (.twoFnNames f.name)))
      else
        match f.ty with
        | .str =>
          match parseInt32 f.tagLength with
          | none => (fvals, .ret 0 (some (.missingLength f.name)))
          | some len =>
            match sliceRange bytes off len with
            | none => (fvals, .fault)
            | some seg =>
              match setStringV (bytesToStr seg) fv with
              | none => (fvals, .fault)
              | some fv2 =>
                updateStructFields mtab fuel sname bytes endian rest (i + 1)
                  (fvals.set i fv2) (off + len)
        | fty =>
          match sliceFrom bytes off with
          | none => (fvals, .fault)
          | some sub =>
            match updateValueByTypeFromBytes mtab fuel fv fty sub endian with
            | (fv2, .fault) => (fvals.set i fv2, .fault)
            | (fv2, .fuelOut) => (fvals.set i fv2, .fuelOut)
            | (fv2, .ret _ (some e)) => (fvals.set i fv2, .ret 0 (some e))
            | (fv2, .ret o none) =>
              updateStructFields mtab fuel sname bytes endian rest (i + 1)
                (fvals.set i fv2) (off + o)

/-- The element loop of the `reflect.Array`/`reflect.Slice` case. -/
def updateArrayElems (mtab : MTab) :
    Nat → Ty → List Nat → Endian → List Val → Int → List Val × DRes
  | 0, _, _, _, elems, _ => (elems, .fuelOut)
  | _ + 1, _, _, _, [], off => ([], .ret off none)
  | fuel + 1, elemTy, bytes, endian, ev :: rest, off =>
    match sliceFrom bytes off with
    | none => (ev :: rest, .fault)
    | some sub =>
      match updateValueByTypeFromBytes mtab fuel ev elemTy sub endian with
      | (ev2, .fault) => (ev2 :: rest, .fault)
      | (ev2, .fuelOut) => (ev2 :: rest, .fuelOut)
      | (ev2, .ret _ (some e)) => (ev2 :: rest, .ret 0 (some e))
      | (ev2, .ret o none) =>
        match updateArrayElems mtab fuel elemTy bytes endian rest (off + o) with
        | (rest2, res) => (ev2 :: rest2, res)
end

/-- The argument of `ConvertBytesToData`: either a pointer to a value
of some shape, or a non-pointer value (whose kind the function
rejects). -/
inductive GoData where
  | ptrTo (t : Ty) (v : Val)
  | nonPtr (t : Ty) (v : Val)

/-- `ConvertBytesToData(bytes, endian, data)`: rejects non-pointer
destinations, otherwise decodes into the pointee and returns the error
component (the offset is dropped).  `none` is a run-time crash (panic
or, in the embedding, fuel exhaustion). -/
def ConvertBytesToData (mtab : MTab) (fuel : Nat) (bytes : List Nat)
    (endian : Endian) (data : GoData) : Option (GoData × Option DErr) :=
  match data with
  | .nonPtr t v => some (.nonPtr t v, some .notPointer)
  | .ptrTo t v =>
    match updateValueByTypeFromBytes mtab fuel v t bytes endian with
    | (_, .fault) => none
    | (_, .fuelOut) => none
    | (v2, .ret _ e) => some (.ptrTo t v2, e)

/-- The number of bytes `updateValueByTypeFromBytes` consumes for each
scalar kind (the spec's width table: 1/2/4/8 bytes for the integer
kinds, 4/8 for the float kinds); `none` for non-scalar kinds. -/
def scalarWidth : Ty → Option Nat
  | .int8 => some 1
  | .int16 => some 2
  | .int32 => some 4
  | .int64 => some 8
  | .uint8 => some 1
  | .uint16 => some 2
  | .uint32 => some 4
  | .uint64 => some 8
  | .float32 => some 4
  | .float64 => some 8
  | _ => none

/-- Whether a value has the runtime kind the given scalar type's
`Set` call expects (signed kinds a signed value, and so on). -/
def kindMatches : Ty → Val → Bool
  | .int8, .intV _ => true
  | .int16, .intV _ => true
  | .int32, .intV _ => true
  | .int64, .intV _ => true
  | .uint8, .uintV _ => true
  | .uint16, .uintV _ => true
  | .uint32, .uintV _ => true
  | .uint64, .uintV _ => true
  | .float32, .floatV _ => true
  | .float64, .floatV _ => true
  | _, _ => false

/-- `kindMatches` lifted to an optional value (`false` when absent). -/
def kindMatchesO (t : Ty) : Option Val → Bool
  | some v => kindMatches t v
  | none => false

/-- The number of bytes one field contributes to a record's total
consumption: inaccessible fields their static type size, fields with a
`bytes_ignore` tag that parses to `true` nothing, all other fields
their static type size. -/
def fieldConsumes (f : Field) : Nat :=
  if f.accessible = false then typeSize f.ty
  else if f.tagIgnore ≠ "" ∧ parseBool f.tagIgnore = some true then 0
  else typeSize f.ty

/-- Total bytes a list of fields consumes. -/
def fieldsConsume : List Field → Nat
  | [] => 0
  | f :: rest => fieldConsumes f + fieldsConsume rest

/-- A method table declaring, on struct type `S`, a decode hook `DecF`
with a value receiver and an otherwise conforming signature
(`func (s S) DecF(b []byte) (int, error)`); its body reports 7 bytes
consumed, no error, and overwrites the receiver's fields. -/
def mtabC7 : MTab := fun sname mname =>
  if sname = "S" ∧ mname = "DecF" then
    some (GoMethod.mk false 2 true 2 true true (fun _ _ => ([Val.intV 42], 7, none)))
  else none

/-- On scalar kinds the static type size coincides with the number of
bytes the decoder consumes. -/
theorem scalarWidth_typeSize (t : Ty) (w : Nat) (hw : scalarWidth t = some w) :
    typeSize t = w := by
  cases t <;> simp only [scalarWidth, Option.some.injEq] at hw <;>
    first
      | exact hw ▸ rfl
      | exact absurd hw (by simp)

/-- Claim C1: the claim asserts that every scalar kind decodes a
full-width buffer to the expected native value, with unsigned kinds
zero-extending the full declared width.  The code violates this for
uint32: it widens the 32-bit read through a signed 16-bit intermediate
(`uint64(int16(val))`), so the little-endian bytes 00 00 01 00, whose
unsigned 32-bit value is 65536, decode to 0. -/
theorem c1_uint32_widened_through_int16 :
    updateValueByTypeFromBytes mtab0 1 (Val.uintV 0) Ty.uint32 [0, 0, 1, 0] Endian.little
        = (Val.uintV 0, DRes.ret 4 none)
    ∧ readUint Endian.little 4 [0, 0, 1, 0] = 65536 :=
  ⟨rfl, rfl⟩

/-- Claim C2: the claim asserts that decoding a descriptor needing
more bytes than remain returns a `BufferOverrun` error.  The code has
no such error: decoding an int32 from the 2-byte buffer evaluates
`bytes[:4]`, an out-of-range slice expression, so the call panics
(`DRes.fault`) instead of returning an error, whatever the byte order,
the method table or the (positive) fuel. -/
theorem c2_int32_short_buffer_panics (mtab : MTab) (fuel : Nat) (endian : Endian) :
    updateValueByTypeFromBytes mtab (fuel + 1) (Val.intV 0) Ty.int32 [1, 2] endian
      = (Val.intV 0, DRes.fault) :=
  rfl

/-- Claim C3: a non-pointer destination is rejected immediately with
the `InvalidArgument` error ("Data should be pointer") and the
destination is returned unchanged; a pointer destination passes the
check and the call proceeds into `updateValueByTypeFromBytes` on the
pointee, its error component becoming the call's result. -/
theorem c3_destination_must_be_pointer (mtab : MTab) (fuel : Nat) (bytes : List Nat)
    (endian : Endian) (t : Ty) (v : Val) :
    ConvertBytesToData mtab fuel bytes endian (GoData.nonPtr t v)
        = some (GoData.nonPtr t v, some DErr.notPointer)
    ∧ ConvertBytesToData mtab fuel bytes endian (GoData.ptrTo t v)
        = (match updateValueByTypeFromBytes mtab fuel v t bytes endian with
           | (_, DRes.fault) => none
           | (_, DRes.fuelOut) => none
           | (v2, DRes.ret _ e) => some (GoData.ptrTo t v2, e)) :=
  ⟨rfl, rfl⟩

/-- Claim C7: the claim asserts that a codec whose decode method has a
value receiver fails with `InvalidCodecSignature` before invocation.
In Go the method set of `*S` contains the value-receiver methods of
`S`, and reflect reports their receiver parameter as `*S`, so the
receiver-kind test in `decodeValueViaFunc` can never fire: the lookup
succeeds, every signature check passes, and the method is invoked — the
decode returns its 7 consumed bytes with no error, while the writes the
codec made to its by-copy receiver are lost (the field keeps its old
value instead of 42). -/
theorem c7_value_receiver_codec_is_invoked :
    updateValueByTypeFromBytes mtabC7 3 (Val.structV [Val.intV 0])
        (Ty.struct "S" [Field.mk "F" Ty.int8 true "" "Enc,DecF" ""]) [9, 9, 9] Endian.little
      = (Val.structV [Val.intV 0], DRes.ret 7 none) :=
  rfl

/-- Claim C4: a field whose `bytes_ignore` tag parses to `true` is
skipped entirely: the field loop continues to the remaining fields
with the same field values (the field receives no value) and the same
cursor (zero bytes consumed). -/
theorem c4_ignore_annotation_skips_field (mtab : MTab) (fuel : Nat) (sname : String)
    (bytes : List Nat) (endian : Endian) (f : Field) (rest : List Field) (i : Nat)
    (fvals : List Val) (off : Int) (hv : i < fvals.length) (hacc : f.accessible = true)
    (hig : f.tagIgnore ≠ "" ∧ parseBool f.tagIgnore = some true) :
    updateStructFields mtab (fuel + 1) sname bytes endian (f :: rest) i fvals off
      = updateStructFields mtab fuel sname bytes endian rest (i + 1) fvals off := by
  obtain ⟨fv, hfv⟩ : ∃ fv, fvals[i]? = some fv :=
    ⟨fvals[i], List.getElem?_eq_getElem hv⟩
  simp only [updateStructFields, hfv, hacc]
  rw [if_neg (by simp), if_pos hig]

/-- Witness for C4, the spec's own example: in the record
`{A: int8 (ignored), B: int8}` decoding the buffer `[0x05]`, the
ignored field A steps to B at the same offset, and the whole record
decodes to `B = 5` with exactly 1 byte consumed. -/
theorem c4_ignore_annotation_skips_field_witness :
    updateStructFields mtab0 3 "R" [5] Endian.little
        [Field.mk "A" Ty.int8 true "true" "" "", Field.mk "B" Ty.int8 true "" "" ""] 0
        [Val.intV 0, Val.intV 0] 0
      = updateStructFields mtab0 2 "R" [5] Endian.little
          [Field.mk "B" Ty.int8 true "" "" ""] 1 [Val.intV 0, Val.intV 0] 0
    ∧ updateValueByTypeFromBytes mtab0 4 (Val.structV [Val.intV 0, Val.intV 0])
        (Ty.struct "R" [Field.mk "A" Ty.int8 true "true" "" "",
                        Field.mk "B" Ty.int8 true "" "" ""]) [5] Endian.little
      = (Val.structV [Val.intV 0, Val.intV 5], DRes.ret 1 none) :=
  ⟨c4_ignore_annotation_skips_field mtab0 2 "R" [5] Endian.little
      (Field.mk "A" Ty.int8 true "true" "" "") [Field.mk "B" Ty.int8 true "" "" ""] 0
      [Val.intV 0, Val.intV 0] 0 (by decide) (by decide) ⟨by decide, by decide⟩,
   rfl⟩

/-- Claim C5: an inaccessible (unexported) field is skipped without
touching the field values, but the cursor advances by the field's
static type size; for a scalar field that size equals the number of
bytes a normal decode of the field would consume, so subsequent fields
decode at the same offset either way. -/
theorem c5_inaccessible_field_is_padding (mtab : MTab) (fuel : Nat) (sname : String)
    (bytes : List Nat) (endian : Endian) (f : Field) (rest : List Field) (i : Nat)
    (fvals : List Val) (off : Int) (w : Nat) (hv : i < fvals.length)
    (hacc : f.accessible = false) (hw : scalarWidth f.ty = some w) :
    updateStructFields mtab (fuel + 1) sname bytes endian (f :: rest) i fvals off
      = updateStructFields mtab fuel sname bytes endian rest (i + 1) fvals
          (off + (typeSize f.ty : Int))
    ∧ typeSize f.ty = w := by
  obtain ⟨fv, hfv⟩ : ∃ fv, fvals[i]? = some fv :=
    ⟨fvals[i], List.getElem?_eq_getElem hv⟩
  refine ⟨?_, scalarWidth_typeSize f.ty w hw⟩
  simp [updateStructFields, hfv, hacc]

/-- Witness for C5: an unexported int16 field advances the cursor by
its static size 2 while leaving the field value untouched. -/
theorem c5_inaccessible_field_is_padding_witness :
    updateStructFields mtab0 1 "R" [1, 2, 3] Endian.little
        [Field.mk "x" Ty.int16 false "" "" ""] 0 [Val.intV 0] 0
      = updateStructFields mtab0 0 "R" [1, 2, 3] Endian.little [] 1 [Val.intV 0] 2
    ∧ typeSize Ty.int16 = 2 :=
  c5_inaccessible_field_is_padding mtab0 0 "R" [1, 2, 3] Endian.little
    (Field.mk "x" Ty.int16 false "" "" "") [] 0 [Val.intV 0] 0 2
    (by decide) (by decide) rfl

/-- Claim C9: a `bytes_ignore` tag that does not parse as a boolean,
or parses as `false`, is silently disregarded: the field loop behaves
exactly as it would if the field carried no ignore tag at all (the
field is decoded normally, no error is reported for the tag). -/
theorem c9_malformed_ignore_tag_is_disregarded (mtab : MTab) (fuel : Nat) (sname : String)
    (bytes : List Nat) (endian : Endian) (f : Field) (rest : List Field) (i : Nat)
    (fvals : List Val) (off : Int) (hv : i < fvals.length) (hacc : f.accessible = true)
    (hig : parseBool f.tagIgnore ≠ some true) :
    updateStructFields mtab (fuel + 1) sname bytes endian (f :: rest) i fvals off
      = updateStructFields mtab (fuel + 1) sname bytes endian
          (Field.mk f.name f.ty f.accessible "" f.tagFn f.tagLength :: rest) i fvals off := by
  obtain ⟨fv, hfv⟩ : ∃ fv, fvals[i]? = some fv :=
    ⟨fvals[i], List.getElem?_eq_getElem hv⟩
  obtain ⟨n, t, a, ti, tf, tl⟩ := f
  simp only [Field.accessible] at hacc
  subst hacc
  simp only [Field.tagIgnore] at hig
  have h1 : ¬(ti ≠ "" ∧ parseBool ti = some true) := fun h => hig h.2
  have h2 : ¬(("" : String) ≠ "" ∧ parseBool "" = some true) := by simp
  simp only [updateStructFields, hfv, Field.name, Field.ty, Field.accessible,
    Field.tagIgnore, Field.tagFn, Field.tagLength, if_neg h1, if_neg h2]

/-- Witness for C9: a field tagged `bytes_ignore:"yes"` (not a valid
boolean) behaves like an untagged field, and the record decodes it
normally, consuming its byte. -/
theorem c9_malformed_ignore_tag_is_disregarded_witness :
    updateStructFields mtab0 2 "R" [5] Endian.little
        [Field.mk "Q" Ty.int8 true "yes" "" ""] 0 [Val.intV 0] 0
      = updateStructFields mtab0 2 "R" [5] Endian.little
          [Field.mk "Q" Ty.int8 true "" "" ""] 0 [Val.intV 0] 0
    ∧ updateValueByTypeFromBytes mtab0 3 (Val.structV [Val.intV 0])
        (Ty.struct "R" [Field.mk "Q" Ty.int8 true "yes" "" ""]) [5] Endian.little
      = (Val.structV [Val.intV 5], DRes.ret 1 none) :=
  ⟨c9_malformed_ignore_tag_is_disregarded mtab0 1 "R" [5] Endian.little
      (Field.mk "Q" Ty.int8 true "yes" "" "") [] 0 [Val.intV 0] 0
      (by decide) (by decide) (by decide),
   rfl⟩

/-- Claim C6: a text (string) field with a parseable declared length
`len` (in particular any positive one, provided the bytes are there)
reads exactly `len` raw bytes starting at the cursor, stores them with
trailing NUL padding trimmed, and advances the cursor by `len`; a
field whose `bytes_length` tag does not parse as an integer fails with
the `MissingLengthTag` error. -/
theorem c6_fixed_length_text_field (mtab : MTab) (fuel : Nat) (sname : String)
    (bytes : List Nat) (endian : Endian) (f : Field) (rest : List Field) (i : Nat)
    (fvals : List Val) (off : Int) (s0 : List Nat)
    (hv : fvals[i]? = some (Val.strV s0)) (hacc : f.accessible = true)
    (hig : parseBool f.tagIgnore ≠ some true) (hfn : f.tagFn = "")
    (hty : f.ty = Ty.str) :
    (∀ len : Int, parseInt32 f.tagLength = some len → 0 < len →
        0 ≤ off → off + len ≤ (bytes.length : Int) →
        updateStructFields mtab (fuel + 1) sname bytes endian (f :: rest) i fvals off
          = updateStructFields mtab fuel sname bytes endian rest (i + 1)
              (fvals.set i (Val.strV (bytesToStr ((bytes.drop off.toNat).take len.toNat))))
              (off + len))
    ∧ (parseInt32 f.tagLength = none →
        updateStructFields mtab (fuel + 1) sname bytes endian (f :: rest) i fvals off
          = (fvals, DRes.ret 0 (some (DErr.missingLength f.name)))) := by
  obtain ⟨n, t, a, ti, tf, tl⟩ := f
  simp only [Field.accessible] at hacc
  simp only [Field.tagIgnore] at hig
  simp only [Field.tagFn] at hfn
  simp only [Field.ty] at hty
  subst hacc hfn hty
  have h1 : ¬(ti ≠ "" ∧ parseBool ti = some true) := fun h => hig h.2
  have h2 : ¬(("" : String) ≠ "") := by simp
  have h3 : ¬(true = false) := by simp
  constructor
  · intro len hlen hpos hoff hle
    simp only [Field.tagLength] at hlen
    simp only [updateStructFields, hv, Field.name, Field.ty, Field.accessible,
      Field.tagIgnore, Field.tagFn, Field.tagLength, if_neg h3, if_neg h1, if_neg h2,
      hlen, sliceRange, if_pos (And.intro hoff (And.intro (le_of_lt hpos) hle)),
      setStringV]
  · intro hlen
    simp only [Field.tagLength] at hlen
    simp only [updateStructFields, hv, Field.name, Field.ty, Field.accessible,
      Field.tagIgnore, Field.tagFn, Field.tagLength, if_neg h3, if_neg h1, if_neg h2, hlen]

/-- Witness for C6, the spec's own example: the buffer "AB\x00\x00"
(bytes 65 66 0 0) with declared length 4 decodes to the text "AB"
(bytes 65 66), the trailing NULs trimmed, 4 bytes consumed. -/
theorem c6_fixed_length_text_field_witness :
    updateStructFields mtab0 2 "R" [65, 66, 0, 0] Endian.little
        [Field.mk "S" Ty.str true "" "" "4"] 0 [Val.strV []] 0
      = updateStructFields mtab0 1 "R" [65, 66, 0, 0] Endian.little [] 1
          [Val.strV [65, 66]] 4 :=
  (c6_fixed_length_text_field mtab0 1 "R" [65, 66, 0, 0] Endian.little
      (Field.mk "S" Ty.str true "" "" "4") [] 0 [Val.strV []] 0 []
      rfl rfl (by decide) rfl rfl).1 4 (by decide) (by decide) (by decide) (by decide)

/-- Helper for C10: every error return of the struct-field loop has
offset component 0 (each `return 0, err` site in the loop body is
literal, and recursion preserves the property). -/
theorem updateStructFields_err_offset_zero :
    ∀ (fuel : Nat) (fs : List Field) (mtab : MTab) (sname : String) (bytes : List Nat)
      (endian : Endian) (i : Nat) (fvals fvals2 : List Val) (off n : Int) (e : DErr),
      updateStructFields mtab fuel sname bytes endian fs i fvals off
        = (fvals2, DRes.ret n (some e)) → n = 0 := by
  intro fuel
  induction fuel with
  | zero =>
    intro fs mtab sname bytes endian i fvals fvals2 off n e h
    simp [updateStructFields] at h
  | succ fuel ih =>
    intro fs mtab sname bytes endian i fvals fvals2 off n e h
    match fs with
    | [] => simp [updateStructFields] at h
    | f :: rest =>
      simp only [updateStructFields] at h
      repeat' split at h
      all_goals first
        | exact ih _ _ _ _ _ _ _ _ _ _ _ h
        | simp_all

/-- Helper for C10: every error return of the array/slice element loop
has offset component 0. -/
theorem updateArrayElems_err_offset_zero :
    ∀ (fuel : Nat) (elems : List Val) (mtab : MTab) (elemTy : Ty) (bytes : List Nat)
      (endian : Endian) (off : Int) (elems2 : List Val) (n : Int) (e : DErr),
      updateArrayElems mtab fuel elemTy bytes endian elems off
        = (elems2, DRes.ret n (some e)) → n = 0 := by
  intro fuel
  induction fuel with
  | zero =>
    intro elems mtab elemTy bytes endian off elems2 n e h
    simp [updateArrayElems] at h
  | succ fuel ih =>
    intro elems mtab elemTy bytes endian off elems2 n e h
    match elems with
    | [] => simp [updateArrayElems] at h
    | ev :: rest =>
      simp only [updateArrayElems] at h
      repeat' split at h
      all_goals try simp_all
      all_goals exact ih _ _ _ _ _ _ _ n e (Prod.ext_iff.mpr (And.intro rfl h.2))

/-- Claim C10: whenever a decode returns an error — from a nested
field, a sequence element, a dynamic value, a custom codec, a text
field, or an unsupported kind — the offset (bytes consumed) component
of the returned pair is 0, even if earlier fields had already consumed
bytes and been written before the failure. -/
theorem c10_error_return_consumes_zero (mtab : MTab) (fuel : Nat) (v : Val) (t : Ty)
    (bytes : List Nat) (endian : Endian) (v2 : Val) (n : Int) (e : DErr)
    (h : updateValueByTypeFromBytes mtab fuel v t bytes endian
           = (v2, DRes.ret n (some e))) : n = 0 := by
  match fuel with
  | 0 => simp [updateValueByTypeFromBytes] at h
  | fuel + 1 =>
    cases t with
    | struct sname fields =>
      cases v <;> simp only [updateValueByTypeFromBytes] at h <;> try simp_all
      case structV fvals =>
        exact updateStructFields_err_offset_zero fuel fields mtab sname bytes endian
          0 fvals _ 0 n e (Prod.ext_iff.mpr (And.intro rfl h.2))
    | arrSlice elemTy =>
      cases v <;> simp only [updateValueByTypeFromBytes] at h <;> try simp_all
      case arrV elems =>
        exact updateArrayElems_err_offset_zero fuel elems mtab elemTy bytes endian
          0 _ n e (Prod.ext_iff.mpr (And.intro rfl h.2))
    | iface =>
      cases v <;> simp only [updateValueByTypeFromBytes] at h <;> try simp_all
      case ifaceV it iv =>
        repeat' split at h
        all_goals simp_all
    | _ =>
      simp only [updateValueByTypeFromBytes] at h
      repeat' split at h
      all_goals simp_all

/-- Witness for C10: in the record `{A: int8, B: bool}` decoding
`[5, 6]`, field A consumes 1 byte and is written (`A = 5`) before B's
unsupported kind fails, yet the reported consumed-byte count of the
error return is 0. -/
theorem c10_error_return_consumes_zero_witness :
    updateValueByTypeFromBytes mtab0 4 (Val.structV [Val.intV 0, Val.other])
        (Ty.struct "R" [Field.mk "A" Ty.int8 true "" "" "",
                        Field.mk "B" (Ty.unsupported "bool") true "" "" ""])
        [5, 6] Endian.little
      = (Val.structV [Val.intV 5, Val.other],
         DRes.ret 0 (some (DErr.unsupportedType "bool")))
    ∧ (0 : Int) = 0 :=
  ⟨rfl,
   c10_error_return_consumes_zero mtab0 4 (Val.structV [Val.intV 0, Val.other])
     (Ty.struct "R" [Field.mk "A" Ty.int8 true "" "" "",
                     Field.mk "B" (Ty.unsupported "bool") true "" "" ""])
     [5, 6] Endian.little (Val.structV [Val.intV 5, Val.other]) 0
     (DErr.unsupportedType "bool") rfl⟩

/-- Helper for C8: a scalar decode on a destination of the matching
kind with enough bytes succeeds and consumes exactly the scalar's
width. -/
theorem updateValue_scalar_ok (mtab : MTab) (fuel : Nat) (t : Ty) (w : Nat) (v : Val)
    (bytes : List Nat) (endian : Endian) (hw : scalarWidth t = some w)
    (hm : kindMatches t v = true) (hlen : w ≤ bytes.length) :
    ∃ v2, updateValueByTypeFromBytes mtab (fuel + 1) v t bytes endian
        = (v2, DRes.ret (w : Int) none) := by
  have hnl : ¬ (bytes.length < w) := Nat.not_lt.mpr hlen
  cases t <;> simp only [scalarWidth, Option.some.injEq] at hw <;>
    try exact Option.noConfusion hw
  all_goals subst hw
  all_goals cases v
  all_goals simp [kindMatches] at hm
  all_goals refine ⟨_, Prod.ext_iff.mpr ⟨rfl, ?_⟩⟩
  all_goals simp only [updateValueByTypeFromBytes]
  all_goals rw [if_neg hnl]
  all_goals simp [setIntW, setUintW, setFloatBits]

/-- Helper for C8: the field loop's step on an accessible, untagged
scalar field writes the decoded value into slot `i` and advances the
cursor by the scalar's width. -/
theorem usf_scalar_step (mtab : MTab) (m : Nat) (sname : String) (bytes : List Nat)
    (endian : Endian) (f : Field) (fs' : List Field) (i : Nat) (fvals : List Val)
    (off : Int) (fv : Val) (w : Nat)
    (hfv : fvals[i]? = some fv) (hacc : f.accessible = true)
    (hig : ¬(f.tagIgnore ≠ "" ∧ parseBool f.tagIgnore = some true))
    (hfn : f.tagFn = "") (hw : scalarWidth f.ty = some w)
    (hkm : kindMatches f.ty fv = true)
    (hoff : 0 ≤ off) (hwlen : off + (w : Int) ≤ (bytes.length : Int)) :
    ∃ fv2, updateStructFields mtab (m + 1 + 1) sname bytes endian (f :: fs') i fvals off
        = updateStructFields mtab (m + 1) sname bytes endian fs' (i + 1)
            (fvals.set i fv2) (off + (w : Int)) := by
  have hTF : ¬(true = false) := by simp
  have hNE : ¬(("" : String) ≠ "") := by simp
  have hsl : sliceFrom bytes off = some (bytes.drop off.toNat) := by
    simp only [sliceFrom]
    rw [if_pos ⟨hoff, by omega⟩]
  have hsublen : w ≤ (bytes.drop off.toNat).length := by
    rw [List.length_drop]
    omega
  obtain ⟨n, t, a, ti, tf, tl⟩ := f
  simp only [Field.accessible] at hacc
  simp only [Field.tagIgnore] at hig
  simp only [Field.tagFn] at hfn
  simp only [Field.ty] at hw hkm
  subst hacc hfn
  obtain ⟨fv2, hdec⟩ :=
    updateValue_scalar_ok mtab m t w fv (bytes.drop off.toNat) endian hw hkm hsublen
  refine ⟨fv2, ?_⟩
  cases t <;> simp only [scalarWidth] at hw <;> try exact Option.noConfusion hw
  all_goals
    simp only [updateStructFields, hfv, Field.name, Field.ty, Field.accessible,
      Field.tagIgnore, Field.tagFn, Field.tagLength, if_neg hTF, if_neg hig,
      if_neg hNE, hsl, hdec]

/-- Claim C8 counterexample: the claim says an annotation-ignored
field contributes its declared static type size, not zero, so the
record `{A: int8 (ignored), B: int8}` should consume 2 bytes; the code
consumes 1 (the ignored field contributes nothing). -/
theorem c8_ignored_field_contributes_zero_not_size :
    updateValueByTypeFromBytes mtab0 4 (Val.structV [Val.intV 0, Val.intV 0])
        (Ty.struct "R" [Field.mk "A" Ty.int8 true "true" "" "",
                        Field.mk "B" Ty.int8 true "" "" ""]) [5] Endian.little
      = (Val.structV [Val.intV 0, Val.intV 5], DRes.ret 1 none)
    ∧ typeSizeFields [Field.mk "A" Ty.int8 true "true" "" "",
                      Field.mk "B" Ty.int8 true "" "" ""] = 2
    ∧ (1 : Int) ≠ 2 :=
  ⟨rfl, rfl, by decide⟩

/-- Claim C8 as amended: for a record of scalar fields (no codec tags)
whose destination slots have the matching kinds, with enough bytes and
enough fuel, decoding succeeds and consumes exactly the sum of the
fields' contributions, where an inaccessible field contributes its
static type size, a field whose ignore annotation parses to `true`
contributes zero, and every other field its scalar width (equal to its
static type size). -/
theorem c8_record_consumes_sum_of_contributions :
    ∀ (fs : List Field) (fuel : Nat) (mtab : MTab) (sname : String) (bytes : List Nat)
      (endian : Endian) (i : Nat) (fvals : List Val) (off : Int),
      (∀ f ∈ fs, (scalarWidth f.ty).isSome ∧ f.tagFn = "") →
      (∀ (j : Nat) (hj : j < fs.length), kindMatchesO (fs.get ⟨j, hj⟩).ty fvals[i + j]? = true) →
      0 ≤ off →
      off + (fieldsConsume fs : Int) ≤ (bytes.length : Int) →
      fs.length + 1 ≤ fuel →
      ∃ fvals2, updateStructFields mtab fuel sname bytes endian fs i fvals off
          = (fvals2, DRes.ret (off + (fieldsConsume fs : Int)) none) := by
  intro fs
  induction fs with
  | nil =>
    intro fuel mtab sname bytes endian i fvals off hs hm hoff hlen hfuel
    obtain ⟨k, rfl⟩ : ∃ k, fuel = k + 1 := ⟨fuel - 1, by omega⟩
    exact ⟨fvals, by simp [updateStructFields, fieldsConsume]⟩
  | cons f fs' ih =>
    intro fuel mtab sname bytes endian i fvals off hs hm hoff hlen hfuel
    obtain ⟨k, rfl⟩ : ∃ k, fuel = k + 1 := ⟨fuel - 1, by omega⟩
    simp only [List.length_cons] at hfuel
    have hflen : fs'.length + 1 ≤ k := by omega
    obtain ⟨hfsc, hffn⟩ := hs f (List.mem_cons_self f fs')
    obtain ⟨w, hw⟩ := Option.isSome_iff_exists.mp hfsc
    have hts : typeSize f.ty = w := scalarWidth_typeSize f.ty w hw
    have hs' : ∀ g ∈ fs', (scalarWidth g.ty).isSome ∧ g.tagFn = "" :=
      fun g hg => hs g (List.mem_cons_of_mem f hg)
    have hm0 : kindMatchesO f.ty fvals[i]? = true := by
      simpa using hm 0 (by simp)
    obtain ⟨fv, hfv, hkm⟩ : ∃ fv, fvals[i]? = some fv ∧ kindMatches f.ty fv = true := by
      cases hfv : fvals[i]? with
      | none => rw [hfv] at hm0; simp [kindMatchesO] at hm0
      | some fv =>
        rw [hfv] at hm0
        exact ⟨fv, rfl, hm0⟩
    have hmsh : ∀ (j : Nat) (hj : j < fs'.length),
        kindMatchesO (fs'.get ⟨j, hj⟩).ty fvals[(i + 1) + j]? = true := by
      intro j hj
      have h2 := hm (j + 1) (by simpa using Nat.succ_lt_succ hj)
      have hidx : i + (j + 1) = (i + 1) + j := by omega
      rw [hidx] at h2
      exact h2
    have hmshSet : ∀ (fv2 : Val) (j : Nat) (hj : j < fs'.length),
        kindMatchesO (fs'.get ⟨j, hj⟩).ty (fvals.set i fv2)[(i + 1) + j]? = true := by
      intro fv2 j hj
      rw [List.getElem?_set_ne (by omega)]
      exact hmsh j hj
    have hconsume : fieldsConsume (f :: fs') = fieldConsumes f + fieldsConsume fs' := rfl
    have hlen2 : off + (fieldConsumes f : Int) + (fieldsConsume fs' : Int)
        ≤ (bytes.length : Int) := by
      rw [hconsume] at hlen
      push_cast at hlen
      omega
    by_cases hacc : f.accessible = false
    · -- inaccessible: advance by static size, field values untouched
      have hfc : fieldConsumes f = w := by simp [fieldConsumes, hacc, hts]
      have harith : (off + (w : Int)) + (fieldsConsume fs' : Int)
          = off + (fieldsConsume (f :: fs') : Int) := by
        rw [hconsume]
        push_cast
        omega
      obtain ⟨fvals2, hrec⟩ := ih k mtab sname bytes endian (i + 1) fvals (off + (w : Int))
        hs' hmsh (by omega) (by omega) (by omega)
      refine ⟨fvals2, ?_⟩
      simp only [updateStructFields, hfv, if_pos hacc, hts]
      rw [hrec, harith]
    · -- accessible
      have hacc2 : f.accessible = true := by
        cases h : f.accessible with
        | true => rfl
        | false => exact absurd h hacc
      by_cases hig : f.tagIgnore ≠ "" ∧ parseBool f.tagIgnore = some true
      · -- ignored by annotation: zero bytes, same offset
        have hfc : fieldConsumes f = 0 := by simp [fieldConsumes, hacc, hig]
        have harith : off + (fieldsConsume fs' : Int)
            = off + (fieldsConsume (f :: fs') : Int) := by
          rw [hconsume]
          push_cast
          omega
        obtain ⟨fvals2, hrec⟩ := ih k mtab sname bytes endian (i + 1) fvals off
          hs' hmsh hoff (by omega) (by omega)
        refine ⟨fvals2, ?_⟩
        simp only [updateStructFields, hfv, hacc2]
        rw [if_neg (by simp), if_pos hig, hrec, harith]
      · -- decoded normally: consumes its scalar width
        have hfc : fieldConsumes f = w := by simp [fieldConsumes, hacc, hig, hts]
        have harith : (off + (w : Int)) + (fieldsConsume fs' : Int)
            = off + (fieldsConsume (f :: fs') : Int) := by
          rw [hconsume]
          push_cast
          omega
        obtain ⟨m, rfl⟩ : ∃ m, k = m + 1 := ⟨k - 1, by omega⟩
        have hwlen : off + (w : Int) ≤ (bytes.length : Int) := by omega
        obtain ⟨fv2, hstep⟩ := usf_scalar_step mtab m sname bytes endian f fs' i fvals
          off fv w hfv hacc2 hig hffn hw hkm hoff hwlen
        obtain ⟨fvals2, hrec⟩ := ih (m + 1) mtab sname bytes endian (i + 1)
          (fvals.set i fv2) (off + (w : Int)) hs' (hmshSet fv2)
          (by omega) (by omega) (by omega)
        refine ⟨fvals2, ?_⟩
        rw [hstep, hrec, harith]

/-- Witness for C8 as amended: the record
`{a: int16 (unexported), B: int8 (ignored), C: uint8}` over the buffer
`[1, 2, 3]` consumes 2 + 0 + 1 = 3 bytes. -/
theorem c8_record_consumes_sum_of_contributions_witness :
    ∃ fvals2, updateStructFields mtab0 4 "R" [1, 2, 3] Endian.little
        [Field.mk "a" Ty.int16 false "" "" "", Field.mk "B" Ty.int8 true "true" "" "",
         Field.mk "C" Ty.uint8 true "" "" ""] 0 [Val.intV 0, Val.intV 0, Val.uintV 0] 0
      = (fvals2, DRes.ret 3 none) :=
  c8_record_consumes_sum_of_contributions
    [Field.mk "a" Ty.int16 false "" "" "", Field.mk "B" Ty.int8 true "true" "" "",
     Field.mk "C" Ty.uint8 true "" "" ""] 4 mtab0 "R" [1, 2, 3] Endian.little 0
    [Val.intV 0, Val.intV 0, Val.uintV 0] 0
    (by decide) (by decide) (by decide) (by decide) (by decide)

end DTB
